import Mathlib

/-!
Shallow embedding of the raw-audio container encoder of
`src/utils/audioUtils.ts` (the core selected by the specification):

* `base64ToUint8Array` — decodes a base64 string to bytes.  The source calls
  the host primitive `atob`, whose behaviour is the WHATWG "forgiving
  base64 decode" (ASCII whitespace is removed first; one or two trailing
  `=` are stripped when the stripped length is a multiple of 4; a remaining
  length ≡ 1 (mod 4) or any character outside the base64 alphabet is an
  error).  Failure (`atob` throwing, surfaced by the spec as
  `MalformedEncodingError`) is modelled by `Option.none`.
* `createWavHeader` — builds the 44-byte RIFF/WAVE header.  The source
  writes fields into a `DataView` at contiguous offsets 0..43, so the
  header is the concatenation of the fields in offset order.  `setUint16`
  and `setUint32` store their argument reduced mod 2^16 / 2^32 in
  little-endian order; this is modelled by `u16le` / `u32le`.  JavaScript
  evaluates `sampleRate * numChannels * (bitsPerSample / 8)` with real
  division followed by integer truncation in `setUint32`, which for
  natural-number inputs equals the natural-number division
  `(sampleRate * numChannels * bitsPerSample) / 8`; likewise for
  `numChannels * (bitsPerSample / 8)` in `setUint16`.
* `pcmToWavBlob` — decodes the base64 payload, builds the header for the
  payload length with sample rate (default 24000), 1 channel and 16 bits
  per sample, concatenates header and payload into one buffer and tags it
  `audio/wav`.

Bytes are `Nat`s (kept below 256 by construction).  All definitions are
executable.
-/

namespace AudioUtils

/-- ASCII whitespace per the WHATWG infra standard (TAB, LF, FF, CR, SPACE);
`atob` removes these before decoding. -/
def isB64Whitespace (c : Char) : Bool :=
  c.toNat = 9 || c.toNat = 10 || c.toNat = 12 || c.toNat = 13 || c.toNat = 32

/-- Value of a character of the standard base64 alphabet
(`A`-`Z`, `a`-`z`, `0`-`9`, `+`, `/`); `none` for any other character. -/
def b64Value (c : Char) : Option Nat :=
  let n := c.toNat
  if 65 ≤ n ∧ n ≤ 90 then some (n - 65)
  else if 97 ≤ n ∧ n ≤ 122 then some (n - 97 + 26)
  else if 48 ≤ n ∧ n ≤ 57 then some (n - 48 + 52)
  else if n = 43 then some 62
  else if n = 47 then some 63
  else none

/-- When the whitespace-free input length is a multiple of 4, `atob`
removes one or two trailing `=` padding characters. -/
def stripB64Padding (cs : List Char) : List Char :=
  if cs.length % 4 = 0 then
    if cs.getLast? = some '=' then
      if cs.dropLast.getLast? = some '=' then cs.dropLast.dropLast
      else cs.dropLast
    else cs
  else cs

/-- Map every character to its base64 value; fail on the first character
outside the alphabet (this includes any `=` left after padding removal). -/
def b64Values (cs : List Char) : Option (List Nat) :=
  match cs with
  | [] => some []
  | c :: rest =>
    match b64Value c, b64Values rest with
    | some v, some vs => some (v :: vs)
    | _, _ => none

/-- Reassemble bytes from 6-bit values: each full group of 4 values yields
3 bytes; a final group of 3 values yields 2 bytes (2 low bits dropped) and
a final group of 2 values yields 1 byte (4 low bits dropped).  A final
group of 1 value cannot occur (length ≡ 1 mod 4 is rejected earlier). -/
def b64DecodeVals (vs : List Nat) : List Nat :=
  match vs with
  | a :: b :: c :: d :: rest =>
    let n := a * 262144 + b * 4096 + c * 64 + d
    n / 65536 :: n / 256 % 256 :: n % 256 :: b64DecodeVals rest
  | [a, b, c] =>
    let n := a * 4096 + b * 64 + c
    [n / 1024, n / 4 % 256]
  | [a, b] =>
    let n := a * 64 + b
    [n / 16]
  | [_] => []
  | [] => []

/-- Decoding of the whitespace-free, padding-stripped character list. -/
def b64DecodeBody (body : List Char) : Option (List Nat) :=
  if body.length % 4 = 1 then none
  else (b64Values body).map b64DecodeVals

/-- The host primitive `atob` (WHATWG forgiving base64 decode), returning
the decoded bytes as the character codes of the resulting binary string. -/
def atob (s : String) : Option (List Nat) :=
  b64DecodeBody (stripB64Padding (s.data.filter (fun c => !isB64Whitespace c)))

/-- `base64ToUint8Array` of the source: `atob`, then each character code is
stored into a `Uint8Array` (a store reduces mod 256, a no-op here since
`atob` only produces byte values). -/
def base64ToUint8Array (s : String) : Option (List Nat) :=
  (atob s).map (fun l => l.map (fun b => b % 256))

/-- Little-endian bytes written by `DataView.setUint16` (value mod 2^16). -/
def u16le (x : Nat) : List Nat :=
  [x % 256, x / 256 % 256]

/-- Little-endian bytes written by `DataView.setUint32` (value mod 2^32). -/
def u32le (x : Nat) : List Nat :=
  [x % 256, x / 256 % 256, x / 65536 % 256, x / 16777216 % 256]

/-- `writeString` of the source: the ASCII codes of the characters, each
stored with `setUint8` (mod 256). -/
def writeString (s : String) : List Nat :=
  s.data.map (fun c => c.toNat % 256)

/-- `createWavHeader` of the source: the 44 header bytes in offset order
(the `DataView` writes cover offsets 0..43 contiguously). -/
def createWavHeader (dataLength sampleRate numChannels bitsPerSample : Nat) :
    List Nat :=
  writeString "RIFF" ++
  u32le (36 + dataLength) ++
  writeString "WAVE" ++
  writeString "fmt " ++
  u32le 16 ++
  u16le 1 ++
  u16le numChannels ++
  u32le sampleRate ++
  u32le (sampleRate * numChannels * bitsPerSample / 8) ++
  u16le (numChannels * bitsPerSample / 8) ++
  u16le bitsPerSample ++
  writeString "data" ++
  u32le dataLength

/-- A JS `Blob`: its byte contents and MIME type tag. -/
structure Blob where
  bytes : List Nat
  type : String
deriving DecidableEq

/-- `pcmToWavBlob` of the source: decode the base64 payload, build the
header for its length with the given sample rate (default 24000), 1
channel and 16 bits per sample, and return header ‖ payload tagged
`audio/wav`.  A decode failure (an `atob` exception) propagates. -/
def pcmToWavBlob (base64Audio : String) (sampleRate : Nat := 24000) :
    Option Blob :=
  (base64ToUint8Array base64Audio).map (fun pcmData =>
    { bytes := createWavHeader pcmData.length sampleRate 1 16 ++ pcmData
      type := "audio/wav" })

/-! Observation functions used to state the claims: reading little-endian
fields and ASCII tags out of a byte list. -/

/-- Read a little-endian 16-bit field at a byte offset. -/
def readU16LE (l : List Nat) (off : Nat) : Nat :=
  l.getD off 0 + 256 * l.getD (off + 1) 0

/-- Read a little-endian 32-bit field at a byte offset. -/
def readU32LE (l : List Nat) (off : Nat) : Nat :=
  l.getD off 0 + 256 * l.getD (off + 1) 0 +
    65536 * l.getD (off + 2) 0 + 16777216 * l.getD (off + 3) 0

/-- The ASCII byte values of a string (used for the fixed tags). -/
def asciiBytes (s : String) : List Nat :=
  s.data.map Char.toNat

/-! A matching standard base64 encoder, used to state the round-trip law
`decode (encode P) = P` of the specification.  It is the ordinary RFC 4648
encoder: bytes are grouped in threes into four 6-bit values, a final group
of one or two bytes is encoded with two or three characters and padded
with `==` or `=` respectively. -/

/-- The character of the standard base64 alphabet with the given value. -/
def b64Char (v : Nat) : Char :=
  Char.ofNat
    (if v < 26 then 65 + v
     else if v < 52 then 97 + (v - 26)
     else if v < 62 then 48 + (v - 52)
     else if v = 62 then 43
     else 47)

/-- The 6-bit values of the base64 encoding of a byte list, without the
trailing padding characters. -/
def base64EncodeCore (bs : List Nat) : List Nat :=
  match bs with
  | x :: y :: z :: rest =>
    x / 4 :: (x % 4 * 16 + y / 16) :: (y % 16 * 4 + z / 64) :: z % 64 ::
      base64EncodeCore rest
  | [x, y] => [x / 4, x % 4 * 16 + y / 16, y % 16 * 4]
  | [x] => [x / 4, x % 4 * 16]
  | [] => []

/-- The trailing padding characters of the base64 encoding of a byte
list: none, `=` or `==` according to the length of the final group. -/
def b64Padding (bs : List Nat) : List Char :=
  match bs with
  | _ :: _ :: _ :: rest => b64Padding rest
  | [_, _] => ['=']
  | [_] => ['=', '=']
  | [] => []

/-- The characters of the base64 encoding of a byte list. -/
def base64EncodeChars (bs : List Nat) : List Char :=
  match bs with
  | x :: y :: z :: rest =>
    b64Char (x / 4) :: b64Char (x % 4 * 16 + y / 16) ::
      b64Char (y % 16 * 4 + z / 64) :: b64Char (z % 64) ::
      base64EncodeChars rest
  | [x, y] => [b64Char (x / 4), b64Char (x % 4 * 16 + y / 16),
               b64Char (y % 16 * 4), '=']
  | [x] => [b64Char (x / 4), b64Char (x % 4 * 16), '=', '=']
  | [] => []

/-- The standard base64 encoding of a byte list. -/
def base64Encode (bs : List Nat) : String :=
  String.mk (base64EncodeChars bs)

/-- Membership in the standard base64 alphabet together with the padding
character, exactly as the claim about decoder errors words it. -/
def isStdB64Char (c : Char) : Bool :=
  (65 ≤ c.toNat && c.toNat ≤ 90) || (97 ≤ c.toNat && c.toNat ≤ 122) ||
  (48 ≤ c.toNat && c.toNat ≤ 57) || c = '+' || c = '/' || c = '='

/-- The exact failure condition of the decoder: after removing ASCII
whitespace and stripping valid trailing padding, the remaining length is
≡ 1 (mod 4) or some remaining character is outside the base64 alphabet. -/
def b64FailCondition (s : String) : Prop :=
  (stripB64Padding (s.data.filter (fun c => !isB64Whitespace c))).length % 4 = 1 ∨
  ∃ c ∈ stripB64Padding (s.data.filter (fun c => !isB64Whitespace c)),
    b64Value c = none

/-! Helper lemmas. -/

theorem b64Value_b64Char : ∀ v, v < 64 → b64Value (b64Char v) = some v := by
  decide

theorem b64Char_not_ws : ∀ v, v < 64 → isB64Whitespace (b64Char v) = false := by
  decide

theorem b64Char_ne_eqChar : ∀ v, v < 64 → b64Char v ≠ '=' := by
  decide

theorem encodeCore_lt :
    ∀ bs : List Nat, (∀ x ∈ bs, x < 256) →
      ∀ v ∈ base64EncodeCore bs, v < 64
  | [], _ => by simp [base64EncodeCore]
  | [x], h => by
    have hx : x < 256 := h x (by simp)
    simp only [base64EncodeCore, List.mem_cons, List.not_mem_nil, or_false]
    rintro v (rfl | rfl) <;> omega
  | [x, y], h => by
    have hx : x < 256 := h x (by simp)
    have hy : y < 256 := h y (by simp)
    simp only [base64EncodeCore, List.mem_cons, List.not_mem_nil, or_false]
    rintro v (rfl | rfl | rfl) <;> omega
  | x :: y :: z :: rest, h => by
    have hx : x < 256 := h x (by simp)
    have hy : y < 256 := h y (by simp)
    have hz : z < 256 := h z (by simp)
    have hrest : ∀ b ∈ rest, b < 256 := fun b hb => h b (by simp [hb])
    simp only [base64EncodeCore, List.mem_cons]
    rintro v (rfl | rfl | rfl | rfl | hv)
    · omega
    · omega
    · omega
    · omega
    · exact encodeCore_lt rest hrest v hv

theorem decodeVals_encodeCore :
    ∀ bs : List Nat, (∀ x ∈ bs, x < 256) →
      b64DecodeVals (base64EncodeCore bs) = bs
  | [], _ => rfl
  | [x], h => by
    have hx : x < 256 := h x (by simp)
    simp only [base64EncodeCore, b64DecodeVals, List.cons.injEq, and_true]
    omega
  | [x, y], h => by
    have hx : x < 256 := h x (by simp)
    have hy : y < 256 := h y (by simp)
    simp only [base64EncodeCore, b64DecodeVals, List.cons.injEq, and_true]
    omega
  | x :: y :: z :: rest, h => by
    have hx : x < 256 := h x (by simp)
    have hy : y < 256 := h y (by simp)
    have hz : z < 256 := h z (by simp)
    have hrest : ∀ b ∈ rest, b < 256 := fun b hb => h b (by simp [hb])
    simp only [base64EncodeCore, b64DecodeVals, List.cons.injEq]
    refine ⟨by omega, by omega, by omega, decodeVals_encodeCore rest hrest⟩

theorem encodeChars_eq :
    ∀ bs : List Nat,
      base64EncodeChars bs =
        (base64EncodeCore bs).map b64Char ++ b64Padding bs
  | [] => rfl
  | [_] => rfl
  | [_, _] => rfl
  | x :: y :: z :: rest => by
    simp only [base64EncodeChars, base64EncodeCore, b64Padding, List.map_cons,
      List.cons_append]
    rw [encodeChars_eq rest]

theorem b64Padding_cases :
    ∀ bs : List Nat,
      b64Padding bs = [] ∨ b64Padding bs = ['='] ∨ b64Padding bs = ['=', '=']
  | [] => Or.inl rfl
  | [_] => Or.inr (Or.inr rfl)
  | [_, _] => Or.inr (Or.inl rfl)
  | _ :: _ :: _ :: rest => b64Padding_cases rest

theorem encode_len_mod :
    ∀ bs : List Nat,
      ((base64EncodeCore bs).length + (b64Padding bs).length) % 4 = 0
  | [] => rfl
  | [_] => by simp [base64EncodeCore, b64Padding]
  | [_, _] => by simp [base64EncodeCore, b64Padding]
  | x :: y :: z :: rest => by
    have ih := encode_len_mod rest
    simp only [base64EncodeCore, b64Padding, List.length_cons]
    omega

theorem encodeCore_len_mod :
    ∀ bs : List Nat, (base64EncodeCore bs).length % 4 ≠ 1
  | [] => by simp [base64EncodeCore]
  | [_] => by simp [base64EncodeCore]
  | [_, _] => by simp [base64EncodeCore]
  | x :: y :: z :: rest => by
    have ih := encodeCore_len_mod rest
    simp only [base64EncodeCore, List.length_cons]
    omega

theorem map_b64Char_getLast_ne :
    ∀ vs : List Nat, (∀ v ∈ vs, v < 64) →
      (vs.map b64Char).getLast? ≠ some '='
  | [], _ => by simp
  | [v], h => by
    have hv : v < 64 := h v (by simp)
    simpa using b64Char_ne_eqChar v hv
  | v :: w :: rest, h => by
    have htl : ∀ u ∈ w :: rest, u < 64 := fun u hu => h u (by simp [hu])
    have ih := map_b64Char_getLast_ne (w :: rest) htl
    simpa [List.getLast?_cons_cons] using ih

theorem strip_append_padding (L pad : List Char)
    (hL : L.getLast? ≠ some '=') (hlen : (L ++ pad).length % 4 = 0)
    (hpad : pad = [] ∨ pad = ['='] ∨ pad = ['=', '=']) :
    stripB64Padding (L ++ pad) = L := by
  rcases hpad with rfl | rfl | rfl
  · rw [List.append_nil] at hlen ⊢
    rw [stripB64Padding, if_pos hlen, if_neg hL]
  · rw [stripB64Padding, if_pos hlen, if_pos (List.getLast?_concat L),
      List.dropLast_concat, if_neg hL]
  · have h2 : L ++ ['=', '='] = (L ++ ['=']) ++ ['='] := by
      rw [List.append_assoc]; rfl
    rw [h2] at hlen ⊢
    rw [stripB64Padding, if_pos hlen, if_pos (List.getLast?_concat _),
      List.dropLast_concat, if_pos (List.getLast?_concat L),
      List.dropLast_concat]

theorem filter_encode_eq (bs : List Nat) (h : ∀ x ∈ bs, x < 256) :
    ((base64EncodeCore bs).map b64Char ++ b64Padding bs).filter
      (fun c => !isB64Whitespace c) =
    (base64EncodeCore bs).map b64Char ++ b64Padding bs := by
  refine List.filter_eq_self.mpr ?_
  intro c hc
  rcases List.mem_append.mp hc with hc | hc
  · obtain ⟨v, hv, rfl⟩ := List.mem_map.mp hc
    simp [b64Char_not_ws v (encodeCore_lt bs h v hv)]
  · have hc' : c = '=' := by
      rcases b64Padding_cases bs with hp | hp | hp <;> rw [hp] at hc <;>
        simp at hc <;> simp [hc]
    subst hc'
    decide

theorem b64Values_map_b64Char :
    ∀ vs : List Nat, (∀ v ∈ vs, v < 64) →
      b64Values (vs.map b64Char) = some vs
  | [], _ => rfl
  | v :: rest, h => by
    have hv : v < 64 := h v (by simp)
    have htl : ∀ u ∈ rest, u < 64 := fun u hu => h u (by simp [hu])
    simp only [List.map_cons, b64Values, b64Value_b64Char v hv,
      b64Values_map_b64Char rest htl]

theorem map_mod_id :
    ∀ bs : List Nat, (∀ x ∈ bs, x < 256) →
      bs.map (fun b => b % 256) = bs
  | [], _ => rfl
  | x :: rest, h => by
    have hx : x < 256 := h x (by simp)
    have htl : ∀ u ∈ rest, u < 256 := fun u hu => h u (by simp [hu])
    simp only [List.map_cons, Nat.mod_eq_of_lt hx, map_mod_id rest htl]

/-- Round-trip of the decoder against the standard encoder, shared by the
claims that need a concrete decodable payload. -/
theorem decode_encode_aux (bs : List Nat) (h : ∀ x ∈ bs, x < 256) :
    base64ToUint8Array (base64Encode bs) = some bs := by
  have hdata : (base64Encode bs).data = base64EncodeChars bs := rfl
  have hcore : ∀ v ∈ base64EncodeCore bs, v < 64 := encodeCore_lt bs h
  rw [base64ToUint8Array, atob, hdata, encodeChars_eq, filter_encode_eq bs h,
    strip_append_padding _ _ (map_b64Char_getLast_ne _ hcore)
      (by rw [List.length_append, List.length_map]; exact encode_len_mod bs)
      (b64Padding_cases bs),
    b64DecodeBody,
    if_neg (by rw [List.length_map]; exact encodeCore_len_mod bs),
    b64Values_map_b64Char _ hcore]
  simp only [Option.map_some']
  rw [decodeVals_encodeCore bs h, map_mod_id bs h]

/-- The header normalised to its 44 bytes (definitional unfolding of the
field writes in offset order). -/
theorem createWavHeader_eq (d sr ch b : Nat) :
    createWavHeader d sr ch b =
      [82, 73, 70, 70,
       (36 + d) % 256, (36 + d) / 256 % 256, (36 + d) / 65536 % 256,
         (36 + d) / 16777216 % 256,
       87, 65, 86, 69,
       102, 109, 116, 32,
       16, 0, 0, 0,
       1, 0,
       ch % 256, ch / 256 % 256,
       sr % 256, sr / 256 % 256, sr / 65536 % 256, sr / 16777216 % 256,
       sr * ch * b / 8 % 256, sr * ch * b / 8 / 256 % 256,
         sr * ch * b / 8 / 65536 % 256, sr * ch * b / 8 / 16777216 % 256,
       ch * b / 8 % 256, ch * b / 8 / 256 % 256,
       b % 256, b / 256 % 256,
       100, 97, 116, 97,
       d % 256, d / 256 % 256, d / 65536 % 256, d / 16777216 % 256] := rfl

/-- All observable facts about a container `header ‖ t`: total header
length, the four ASCII tags, and every little-endian numeric field. -/
theorem container_spec (d sr ch b : Nat) (t : List Nat) :
    (createWavHeader d sr ch b).length = 44 ∧
    (createWavHeader d sr ch b ++ t).take 4 = asciiBytes "RIFF" ∧
    readU32LE (createWavHeader d sr ch b ++ t) 4 = (36 + d) % 4294967296 ∧
    ((createWavHeader d sr ch b ++ t).drop 8).take 4 = asciiBytes "WAVE" ∧
    ((createWavHeader d sr ch b ++ t).drop 12).take 4 = asciiBytes "fmt " ∧
    readU32LE (createWavHeader d sr ch b ++ t) 16 = 16 ∧
    readU16LE (createWavHeader d sr ch b ++ t) 20 = 1 ∧
    readU16LE (createWavHeader d sr ch b ++ t) 22 = ch % 65536 ∧
    readU32LE (createWavHeader d sr ch b ++ t) 24 = sr % 4294967296 ∧
    readU32LE (createWavHeader d sr ch b ++ t) 28 =
      sr * ch * b / 8 % 4294967296 ∧
    readU16LE (createWavHeader d sr ch b ++ t) 32 = ch * b / 8 % 65536 ∧
    readU16LE (createWavHeader d sr ch b ++ t) 34 = b % 65536 ∧
    ((createWavHeader d sr ch b ++ t).drop 36).take 4 = asciiBytes "data" ∧
    readU32LE (createWavHeader d sr ch b ++ t) 40 = d % 4294967296 ∧
    (createWavHeader d sr ch b ++ t).drop 44 = t := by
  rw [createWavHeader_eq]
  refine ⟨rfl, rfl, ?_, rfl, rfl, rfl, rfl, ?_, ?_, ?_, ?_, ?_, rfl, ?_, rfl⟩
  · show (36 + d) % 256 + 256 * ((36 + d) / 256 % 256) +
        65536 * ((36 + d) / 65536 % 256) +
        16777216 * ((36 + d) / 16777216 % 256) = (36 + d) % 4294967296
    omega
  · show ch % 256 + 256 * (ch / 256 % 256) = ch % 65536
    omega
  · show sr % 256 + 256 * (sr / 256 % 256) + 65536 * (sr / 65536 % 256) +
        16777216 * (sr / 16777216 % 256) = sr % 4294967296
    omega
  · generalize sr * ch * b / 8 = e
    show e % 256 + 256 * (e / 256 % 256) + 65536 * (e / 65536 % 256) +
        16777216 * (e / 16777216 % 256) = e % 4294967296
    omega
  · generalize ch * b / 8 = e
    show e % 256 + 256 * (e / 256 % 256) = e % 65536
    omega
  · show b % 256 + 256 * (b / 256 % 256) = b % 65536
    omega
  · show d % 256 + 256 * (d / 256 % 256) + 65536 * (d / 65536 % 256) +
        16777216 * (d / 16777216 % 256) = d % 4294967296
    omega

theorem b64Values_eq_none :
    ∀ cs : List Char, b64Values cs = none ↔ ∃ c ∈ cs, b64Value c = none
  | [] => by simp [b64Values]
  | c :: rest => by
    constructor
    · intro h
      rw [b64Values] at h
      cases hv : b64Value c with
      | none => exact ⟨c, by simp, hv⟩
      | some v =>
        cases hr : b64Values rest with
        | none =>
          obtain ⟨c', hc', hval⟩ := (b64Values_eq_none rest).mp hr
          exact ⟨c', by simp [hc'], hval⟩
        | some vs => rw [hv, hr] at h; exact Option.noConfusion h
    · rintro ⟨c', hc', hval⟩
      rw [b64Values]
      rcases List.mem_cons.mp hc' with rfl | hm
      · rw [hval]
      · rw [(b64Values_eq_none rest).mpr ⟨c', hm, hval⟩]
        cases b64Value c <;> rfl

/-! The claims. -/

/-- Claim C1: for every base64 input string that decodes to a byte
sequence `P`, `pcmToWavBlob` returns a binary object of total byte length
exactly `44 + P.length`, whose bytes at indices `[44:]` equal `P` exactly,
tagged with MIME type `audio/wav`. -/
theorem c1_payload_integrity (s : String) (sr : Nat) (P : List Nat)
    (h : base64ToUint8Array s = some P) :
    ∃ blob, pcmToWavBlob s sr = some blob ∧
      blob.bytes.length = 44 + P.length ∧
      blob.bytes.drop 44 = P ∧
      blob.type = "audio/wav" := by
  obtain ⟨h44, -, -, -, -, -, -, -, -, -, -, -, -, -, hdrop⟩ :=
    container_spec P.length sr 1 16 P
  refine ⟨⟨createWavHeader P.length sr 1 16 ++ P, "audio/wav"⟩,
    by rw [pcmToWavBlob, h]; rfl, ?_, hdrop, rfl⟩
  rw [List.length_append, h44]

theorem c1_payload_integrity_witness :
    ∃ blob, pcmToWavBlob "AAA=" 9999 = some blob ∧
      blob.bytes.length = 44 + ([0, 0] : List Nat).length ∧
      blob.bytes.drop 44 = [0, 0] ∧
      blob.type = "audio/wav" :=
  c1_payload_integrity "AAA=" 9999 [0, 0] (by decide)

/-- Claim C2: for every `payloadLength`, `sampleRate`, `channelCount` and
`bitsPerSample`, `createWavHeader` returns exactly 44 bytes with every
field at its specified offset — `RIFF` at 0, `36 + payloadLength` as
little-endian u32 at 4, `WAVE` at 8, `fmt ` at 12, 16 as u32 at 16, 1 as
u16 at 20, the channel count as u16 at 22, the sample rate as u32 at 24,
the byte rate as u32 at 28, the block align as u16 at 32, the bits per
sample as u16 at 34, `data` at 36 and `payloadLength` as little-endian
u32 at 40 — all multi-byte integer fields little-endian (each value
reduced mod 2^16 / 2^32 by the 2- and 4-byte stores). -/
theorem c2_header_layout (d sr ch b : Nat) :
    (createWavHeader d sr ch b).length = 44 ∧
    (createWavHeader d sr ch b).take 4 = asciiBytes "RIFF" ∧
    readU32LE (createWavHeader d sr ch b) 4 = (36 + d) % 4294967296 ∧
    ((createWavHeader d sr ch b).drop 8).take 4 = asciiBytes "WAVE" ∧
    ((createWavHeader d sr ch b).drop 12).take 4 = asciiBytes "fmt " ∧
    readU32LE (createWavHeader d sr ch b) 16 = 16 ∧
    readU16LE (createWavHeader d sr ch b) 20 = 1 ∧
    readU16LE (createWavHeader d sr ch b) 22 = ch % 65536 ∧
    readU32LE (createWavHeader d sr ch b) 24 = sr % 4294967296 ∧
    readU32LE (createWavHeader d sr ch b) 28 = sr * ch * b / 8 % 4294967296 ∧
    readU16LE (createWavHeader d sr ch b) 32 = ch * b / 8 % 65536 ∧
    readU16LE (createWavHeader d sr ch b) 34 = b % 65536 ∧
    ((createWavHeader d sr ch b).drop 36).take 4 = asciiBytes "data" ∧
    readU32LE (createWavHeader d sr ch b) 40 = d % 4294967296 := by
  have h := container_spec d sr ch b []
  rw [List.append_nil] at h
  obtain ⟨h1, h2, h3, h4, h5, h6, h7, h8, h9, h10, h11, h12, h13, h14, -⟩ := h
  exact ⟨h1, h2, h3, h4, h5, h6, h7, h8, h9, h10, h11, h12, h13, h14⟩

/-- Claim C3, counterexample: `createWavHeader` performs no validation at
all — with `sampleRate = 0` it does not fail, it returns a normal 44-byte
header whose SampleRate field is 0. -/
theorem c3_counterexample :
    (createWavHeader 4 0 1 16).length = 44 ∧
    readU32LE (createWavHeader 4 0 1 16) 24 = 0 := by
  decide

/-- Claim C3, amended: `createWavHeader` contains no parameter validation
and has no error outcome: for every choice of parameters — including a
zero sample rate, zero channel count or a `bitsPerSample` that is not a
multiple of 8 — it returns an ordinary 44-byte header carrying the given
sample rate (reduced mod 2^32) at offset 24. -/
theorem c3_no_validation (d sr ch b : Nat) :
    (createWavHeader d sr ch b).length = 44 ∧
    readU32LE (createWavHeader d sr ch b) 24 = sr % 4294967296 := by
  have h := container_spec d sr ch b []
  rw [List.append_nil] at h
  exact ⟨h.1, h.2.2.2.2.2.2.2.2.1⟩

/-- Claim C4, counterexample: the channel count cannot be overridden — no
input whatsoever makes `pcmToWavBlob` produce a container whose
NumChannels field is 2 (the function hard-codes 1 channel and 16 bits and
only exposes the sample rate). -/
theorem c4_counterexample :
    ¬ ∃ (s : String) (sr : Nat) (blob : Blob),
        pcmToWavBlob s sr = some blob ∧ readU16LE blob.bytes 22 = 2 := by
  rintro ⟨s, sr, blob, hb, hf⟩
  rw [pcmToWavBlob] at hb
  cases hdec : base64ToUint8Array s with
  | none => rw [hdec] at hb; exact Option.noConfusion hb
  | some P =>
    rw [hdec] at hb
    simp only [Option.map_some', Option.some.injEq] at hb
    subst hb
    have h := (container_spec P.length sr 1 16 P).2.2.2.2.2.2.2.1
    rw [hf] at h
    omega

/-- Claim C4, amended: the assembler's profile defaults the sample rate to
24000 and the caller may override the sample rate only; the override takes
effect in the SampleRate and ByteRate fields, while the channel count is
fixed at 1 and the bits per sample fixed at 16. -/
theorem c4_profile (s : String) (sr : Nat) (P : List Nat)
    (h : base64ToUint8Array s = some P) :
    pcmToWavBlob s = pcmToWavBlob s 24000 ∧
    ∃ blob, pcmToWavBlob s sr = some blob ∧
      readU32LE blob.bytes 24 = sr % 4294967296 ∧
      readU32LE blob.bytes 28 = sr * 2 % 4294967296 ∧
      readU16LE blob.bytes 22 = 1 ∧
      readU16LE blob.bytes 34 = 16 := by
  obtain ⟨-, -, -, -, -, -, -, hch, hsr, hbr, -, hbits, -, -, -⟩ :=
    container_spec P.length sr 1 16 P
  refine ⟨rfl, ⟨createWavHeader P.length sr 1 16 ++ P, "audio/wav"⟩,
    by rw [pcmToWavBlob, h]; rfl, hsr, ?_, by rw [hch], by rw [hbits]⟩
  rw [hbr]
  omega

theorem c4_profile_witness :
    pcmToWavBlob "AAA=" = pcmToWavBlob "AAA=" 24000 ∧
    ∃ blob, pcmToWavBlob "AAA=" 5 = some blob ∧
      readU32LE blob.bytes 24 = 5 % 4294967296 ∧
      readU32LE blob.bytes 28 = 5 * 2 % 4294967296 ∧
      readU16LE blob.bytes 22 = 1 ∧
      readU16LE blob.bytes 34 = 16 :=
  c4_profile "AAA=" 5 [0, 0] (by decide)

/-- Claim C5, counterexample: a single space is a character outside the
standard base64 alphabet, yet decoding it does not fail — `atob` removes
ASCII whitespace before decoding, so the decoder succeeds with an empty
byte sequence. -/
theorem c5_counterexample :
    (∃ c ∈ (" " : String).data, isStdB64Char c = false) ∧
    base64ToUint8Array " " = some [] := by
  decide

/-- Claim C5, amended: the decoder fails exactly when the input, after
removal of ASCII whitespace and of up to two trailing `=` padding
characters (allowed only when the whitespace-free length is a multiple
of 4), has length ≡ 1 (mod 4) or still contains a character outside the
base64 alphabet; whitespace is tolerated and omitted padding is accepted.
In particular decoding `"!!invalid!!"` fails, and no validation beyond
this is performed on the decoded bytes. -/
theorem c5_decode_errors (s : String) :
    (base64ToUint8Array s = none ↔ b64FailCondition s) ∧
    base64ToUint8Array "!!invalid!!" = none := by
  refine ⟨?_, by decide⟩
  rw [base64ToUint8Array, Option.map_eq_none', atob, b64DecodeBody,
    b64FailCondition]
  by_cases hlen :
      (stripB64Padding (s.data.filter fun c => !isB64Whitespace c)).length
        % 4 = 1
  · simp [hlen]
  · rw [if_neg hlen, Option.map_eq_none', b64Values_eq_none]
    simp [hlen]

/-- Claim C6: the ByteRate field equals
`sampleRate * channelCount * bitsPerSample / 8` and BlockAlign equals
`channelCount * bitsPerSample / 8` (as their u32/u16 encodings); and
assembling 48000 zero bytes with the default profile yields a 48044-byte
container with ByteRate 48000 and BlockAlign 2. -/
theorem c6_byte_rate_block_align :
    (∀ d sr ch b t,
      readU32LE (createWavHeader d sr ch b ++ t) 28 =
        sr * ch * b / 8 % 4294967296 ∧
      readU16LE (createWavHeader d sr ch b ++ t) 32 = ch * b / 8 % 65536) ∧
    ∃ blob,
      pcmToWavBlob (base64Encode (List.replicate 48000 0)) 24000 =
        some blob ∧
      blob.bytes.length = 48044 ∧
      readU32LE blob.bytes 28 = 48000 ∧
      readU16LE blob.bytes 32 = 2 := by
  constructor
  · intro d sr ch b t
    obtain ⟨-, -, -, -, -, -, -, -, -, hbr, hba, -, -, -, -⟩ :=
      container_spec d sr ch b t
    exact ⟨hbr, hba⟩
  · have hdec := decode_encode_aux (List.replicate 48000 0)
      (fun x hx => by rw [List.eq_of_mem_replicate hx]; omega)
    obtain ⟨h44, -, -, -, -, -, -, -, -, hbr, hba, -, -, -, -⟩ :=
      container_spec (List.replicate 48000 (0 : Nat)).length 24000 1 16
        (List.replicate 48000 0)
    refine ⟨⟨createWavHeader (List.replicate 48000 (0 : Nat)).length
        24000 1 16 ++ List.replicate 48000 0, "audio/wav"⟩,
      by rw [pcmToWavBlob, hdec]; rfl, ?_, by rw [hbr], by rw [hba]⟩
    rw [List.length_append, h44, List.length_replicate]

/-- Claim C7: for every valid input to the assembler, the returned
container's bytes `[0:4]` equal `RIFF`, `[8:12]` equal `WAVE`, `[12:16]`
equal `fmt ` and `[36:40]` equal `data`. -/
theorem c7_fixed_tags (s : String) (sr : Nat) (blob : Blob)
    (h : pcmToWavBlob s sr = some blob) :
    blob.bytes.take 4 = asciiBytes "RIFF" ∧
    (blob.bytes.drop 8).take 4 = asciiBytes "WAVE" ∧
    (blob.bytes.drop 12).take 4 = asciiBytes "fmt " ∧
    (blob.bytes.drop 36).take 4 = asciiBytes "data" := by
  rw [pcmToWavBlob] at h
  cases hdec : base64ToUint8Array s with
  | none => rw [hdec] at h; exact Option.noConfusion h
  | some P =>
    rw [hdec] at h
    simp only [Option.map_some', Option.some.injEq] at h
    subst h
    obtain ⟨-, hriff, -, hwave, hfmt, -, -, -, -, -, -, -, hdata, -, -⟩ :=
      container_spec P.length sr 1 16 P
    exact ⟨hriff, hwave, hfmt, hdata⟩

theorem c7_fixed_tags_witness :
    (Blob.mk (createWavHeader 0 24000 1 16 ++ []) "audio/wav").bytes.take 4
      = asciiBytes "RIFF" ∧
    ((Blob.mk (createWavHeader 0 24000 1 16 ++ []) "audio/wav").bytes.drop
      8).take 4 = asciiBytes "WAVE" ∧
    ((Blob.mk (createWavHeader 0 24000 1 16 ++ []) "audio/wav").bytes.drop
      12).take 4 = asciiBytes "fmt " ∧
    ((Blob.mk (createWavHeader 0 24000 1 16 ++ []) "audio/wav").bytes.drop
      36).take 4 = asciiBytes "data" :=
  c7_fixed_tags "" 24000 _ (by decide)

/-- Claim C8: for every byte sequence `P`, decoding the standard base64
encoding of `P` with the decoder returns `P`. -/
theorem c8_roundtrip (P : List Nat) (h : ∀ b ∈ P, b < 256) :
    base64ToUint8Array (base64Encode P) = some P :=
  decode_encode_aux P h

theorem c8_roundtrip_witness :
    base64ToUint8Array (base64Encode [0, 127, 255]) = some [0, 127, 255] :=
  c8_roundtrip [0, 127, 255] (by decide)

/-- Claim C9: the decoder, the header builder and the assembler are pure
and deterministic — any two calls with the same input string and the same
format parameters return identical results. -/
theorem c9_determinism (s₁ s₂ : String) (r₁ r₂ d₁ d₂ n₁ n₂ b₁ b₂ : Nat)
    (hs : s₁ = s₂) (hr : r₁ = r₂) (hd : d₁ = d₂) (hn : n₁ = n₂)
    (hb : b₁ = b₂) :
    base64ToUint8Array s₁ = base64ToUint8Array s₂ ∧
    createWavHeader d₁ r₁ n₁ b₁ = createWavHeader d₂ r₂ n₂ b₂ ∧
    pcmToWavBlob s₁ r₁ = pcmToWavBlob s₂ r₂ := by
  subst hs; subst hr; subst hd; subst hn; subst hb
  exact ⟨rfl, rfl, rfl⟩

theorem c9_determinism_witness :
    base64ToUint8Array "QQ==" = base64ToUint8Array "QQ==" ∧
    createWavHeader 2 24000 1 16 = createWavHeader 2 24000 1 16 ∧
    pcmToWavBlob "QQ==" 24000 = pcmToWavBlob "QQ==" 24000 :=
  c9_determinism "QQ==" "QQ==" 24000 24000 2 2 1 1 16 16
    rfl rfl rfl rfl rfl

/-- Claim C10: when the base64 input decodes to a zero-length payload,
the assembler raises no error: it returns a 44-byte container that is the
header alone, with ChunkSize (offset 4) equal to 36 and Subchunk2Size
(offset 40) equal to 0. -/
theorem c10_empty_payload (s : String) (sr : Nat)
    (h : base64ToUint8Array s = some []) :
    ∃ blob, pcmToWavBlob s sr = some blob ∧
      blob.bytes.length = 44 ∧
      readU32LE blob.bytes 4 = 36 ∧
      readU32LE blob.bytes 40 = 0 := by
  obtain ⟨h44, -, hsz, -, -, -, -, -, -, -, -, -, -, hd, -⟩ :=
    container_spec 0 sr 1 16 []
  refine ⟨⟨createWavHeader 0 sr 1 16 ++ [], "audio/wav"⟩,
    by rw [pcmToWavBlob, h]; rfl, ?_, by rw [hsz], by rw [hd]⟩
  rw [List.append_nil, h44]

theorem c10_empty_payload_witness :
    ∃ blob, pcmToWavBlob "" 24000 = some blob ∧
      blob.bytes.length = 44 ∧
      readU32LE blob.bytes 4 = 36 ∧
      readU32LE blob.bytes 40 = 0 :=
  c10_empty_payload "" 24000 (by decide)

end AudioUtils
